import Mathlib

/-!
# Verification of the animation playback engine of
# `tree-based-web-search-algorithm` (`src/components/Graph.tsx`)

This file gives a shallow embedding of the playback core of the graph-search
visualizer and settles the frozen claims about it.

Modelling conventions, mirrored from the source:

* The SVG scene is a list of circle elements (one per node, carrying its
  `data-label` and current `fill`) and a list of line elements (one per link,
  keyed by the stored `(source, target)` index pair, carrying `stroke` and
  `stroke-width`).  A d3 `select('#id')` followed by `.attr(...)` updates the
  first element whose key matches and does nothing when no element matches;
  `selectAll` updates every element.  `selectLine` / `selectCircle` /
  `mapLines` / `mapCircles` below implement exactly that.
* `currentIndexRef`, `isPaused`, `isComplete`, the armed `setInterval` handle
  (`animationRef`) and the `currentStep` progress record become fields of
  `PlayState`.  `completedCount` is a ghost counter of invocations of the
  `onAnimationComplete` callback.
* The `animate` closure captures `isPaused` from the render that armed it; a
  React re-render re-arms the interval with a fresh closure whenever
  `isPaused` changes, so the effective guard always reads the current value.
  The embedding therefore reads `isPaused` from the current state at tick
  time.
* A run is a fold of events (`Ev`) over `step`: `tick` fires only while the
  interval is armed, `toggle` / `reset` are the imperative handle's
  `togglePause` / `resetVisualization`, `start` is `startAnimation` (invoked
  by the mount effect in the source), and `resize` is the viewport-resize
  path (`drawGraph` rebuild followed by the re-run of the animation effect).
* Node positions, scale maps and label text do not influence any claim
  (the resize claim compares colors and stroke styles "up to scale"), so the
  scene keeps colors and widths but not coordinates.
-/

namespace GraphViz

/-- The colors the component ever writes into a `fill` or `stroke`
attribute: `white` (neutral node), `red` (start / visited / active edge),
`green` (goal), `black` (neutral edge). -/
inductive Color where
  | white
  | red
  | green
  | black
deriving DecidableEq, Repr

/-- A node of `GraphData` (`src/types/graph.ts`).  The `isStartNode`,
`isGoalNode` and `links` fields of the TypeScript interface are never read by
`Graph.tsx` and are omitted; `x`/`y` are kept for faithfulness of the data
model although no claim depends on coordinates. -/
structure GNode where
  index : Nat
  x : Int
  y : Int
  label : String
deriving DecidableEq, Repr

/-- A link of `GraphData`: node indices plus a distance (only displayed). -/
structure Link where
  source : Nat
  target : Nat
  distance : Int
deriving DecidableEq, Repr

/-- The graph payload consumed by the component. -/
structure GraphData where
  nodes : List GNode
  links : List Link
deriving DecidableEq, Repr

/-- One SVG circle as drawn by `drawGraph`: id `circle-<index>`, its
`data-label` attribute, and its current `fill`. -/
structure CircleElem where
  id : Nat
  dataLabel : String
  fill : Color
deriving DecidableEq, Repr

/-- One SVG line as drawn by `drawGraph`: id `line-<source>-<target>` in the
stored orientation, plus current `stroke` and `stroke-width`. -/
structure LineElem where
  src : Nat
  tgt : Nat
  stroke : Color
  strokeWidth : Nat
deriving DecidableEq, Repr

/-- The mutable SVG scene under the `<g>` element. -/
structure Scene where
  circles : List CircleElem
  lines : List LineElem
deriving DecidableEq, Repr

/-- The per-run configuration: props of the `Graph` component that stay fixed
for one playback run.  `smallView` is `dimensions.width <= 500` (it only
selects the active stroke width 5 vs 10). -/
structure Config where
  data : GraphData
  paths : List (String × String)
  algorithm : String
  startNode : Option String
  goalNode : Option String
  smallView : Bool
deriving DecidableEq, Repr

/-- The playback controller state.  `completedCount` is a ghost counter of
`onAnimationComplete` invocations.  Phase mapping used by the claims:
`Complete` is `isComplete = true`; `Idle` is `currentIndex = 0`,
`timerArmed = false`, `isComplete = false`; `Running` is `timerArmed = true`,
`isPaused = false`, `isComplete = false`; `Paused` is `isPaused = true`. -/
structure PlayState where
  currentIndex : Nat
  isPaused : Bool
  isComplete : Bool
  timerArmed : Bool
  currentStep : Option (String × String)
  completedCount : Nat
  scene : Scene
deriving DecidableEq, Repr

/-- d3 `g.select('#line-a-b').attr(...)`: update the first line whose key is
`(a, b)`; no element matching means no change. -/
def selectLine (ls : List LineElem) (a b : Nat) (f : LineElem → LineElem) :
    List LineElem :=
  match ls with
  | [] => []
  | l :: rest =>
    if l.src = a ∧ l.tgt = b then f l :: rest
    else l :: selectLine rest a b f

/-- d3 `g.select('#circle-i').attr(...)`: update the first circle with id
`i`; no element matching means no change. -/
def selectCircle (cs : List CircleElem) (i : Nat) (f : CircleElem → CircleElem) :
    List CircleElem :=
  match cs with
  | [] => []
  | c :: rest =>
    if c.id = i then f c :: rest
    else c :: selectCircle rest i f

/-- The `fill` the document would report for `#circle-<i>` (first match). -/
def circleFill (sc : Scene) (i : Nat) : Option Color :=
  (sc.circles.find? (fun c => c.id == i)).map (fun c => c.fill)

/-- The `stroke` the document would report for `#line-<a>-<b>`. -/
def lineStroke (sc : Scene) (a b : Nat) : Option Color :=
  (sc.lines.find? (fun l => l.src == a && l.tgt == b)).map (fun l => l.stroke)

/-- `stroke` and `stroke-width` of `#line-<a>-<b>` together. -/
def lineStyle (sc : Scene) (a b : Nat) : Option (Color × Nat) :=
  (sc.lines.find? (fun l => l.src == a && l.tgt == b)).map
    (fun l => (l.stroke, l.strokeWidth))

/-- `data.nodes.find(node => node.label === lbl)`. -/
def findNode (d : GraphData) (lbl : String) : Option GNode :=
  d.nodes.find? (fun n => n.label == lbl)

/-- The initial fill written by `drawGraph`:
`label === startNode ? 'red' : label === goalNode ? 'green' : 'white'`. -/
def initFill (cfg : Config) (lbl : String) : Color :=
  if cfg.startNode = some lbl then Color.red
  else if cfg.goalNode = some lbl then Color.green
  else Color.white

/-- `drawGraph` (Graph.tsx lines 145-218): clears the `<g>` and rebuilds every
line (neutral black, width 1, id `line-<source>-<target>` in stored
orientation) and every circle (id `circle-<index>`, fill from start/goal
precedence).  Coordinates and text labels are display-only and omitted. -/
def drawGraph (cfg : Config) : Scene :=
  { lines := cfg.data.links.map (fun lk =>
      { src := lk.source, tgt := lk.target,
        stroke := Color.black, strokeWidth := 1 }),
    circles := cfg.data.nodes.map (fun n =>
      { id := n.index, dataLabel := n.label, fill := initFill cfg n.label }) }

/-- `setInitialNodeColors` (Graph.tsx lines 84-99): recolors every circle from
its `data-label` with start > goal > visited (target of a step before `idx`)
> white precedence.  `idx` is the value of `currentIndexRef.current` at call
time. -/
def setInitialNodeColors (cfg : Config) (idx : Nat) (sc : Scene) : Scene :=
  { sc with circles := sc.circles.map (fun c =>
      { c with fill :=
          if cfg.startNode = some c.dataLabel then Color.red
          else if cfg.goalNode = some c.dataLabel then Color.green
          else if (cfg.paths.take idx).any (fun p => p.2 == c.dataLabel) then
            Color.red
          else Color.white }) }

/-- The de-highlight block of `animate` (Graph.tsx lines 239-254): for a
non-"bfs" algorithm, find the first earlier step sharing the current source
label and revert that step's edge (in its resolved orientation) to the
neutral style. -/
def revertLines (cfg : Config) (i : Nat) (sourceLabel : String)
    (ls : List LineElem) : List LineElem :=
  if cfg.algorithm ≠ "bfs" then
    match (cfg.paths.take i).find? (fun p => p.1 == sourceLabel) with
    | some prev =>
      match findNode cfg.data prev.1, findNode cfg.data prev.2 with
      | some psn, some ptn =>
        selectLine ls psn.index ptn.index
          (fun l => { l with stroke := Color.black, strokeWidth := 1 })
      | _, _ => ls
    | none => ls
  else ls

/-- The visual part of one `animate` call (Graph.tsx lines 232-264): look up
the step at index `i`; if both labels resolve, de-highlight (non-bfs),
highlight the step's edge red (width 5 on small viewports, 10 otherwise),
color the target circle red, and set the "From Node: X to Node: Y" progress
record; otherwise change nothing. -/
def applyStep (cfg : Config) (i : Nat) (sc : Scene)
    (cur : Option (String × String)) : Scene × Option (String × String) :=
  match cfg.paths.get? i with
  | none => (sc, cur)
  | some (sl, tl) =>
    match findNode cfg.data sl, findNode cfg.data tl with
    | some sn, some tn =>
      let ls1 := revertLines cfg i sl sc.lines
      let ls2 := selectLine ls1 sn.index tn.index (fun l =>
        { l with stroke := Color.red,
                 strokeWidth := if cfg.smallView then 5 else 10 })
      let cs1 := selectCircle sc.circles tn.index
        (fun c => { c with fill := Color.red })
      ({ circles := cs1, lines := ls2 }, some (sl, tl))
    | _, _ => (sc, cur)

/-- One timer tick, `animate` (Graph.tsx lines 229-277): no-op while paused;
otherwise apply the step's visuals, then — testing
`currentIndexRef.current >= paths.length - 1` before any increment — either
complete (set `isComplete`, clear the interval, invoke the completion
callback, and return without incrementing) or advance `currentIndexRef` by
one.  Over naturals the JavaScript comparison `i >= len - 1` is
`i + 1 >= len` (also matching the `len = 0` case, where `i >= -1` is
always true). -/
def animate (cfg : Config) (s : PlayState) : PlayState :=
  if s.isPaused then s
  else
    let v := applyStep cfg s.currentIndex s.scene s.currentStep
    let s1 := { s with scene := v.1, currentStep := v.2 }
    if s.currentIndex + 1 ≥ cfg.paths.length then
      { s1 with isComplete := true, timerArmed := false,
                completedCount := s1.completedCount + 1 }
    else
      { s1 with currentIndex := s1.currentIndex + 1 }

/-- `startAnimation` (Graph.tsx lines 220-284): bail out when the path list
is empty; apply `setInitialNodeColors` when `currentIndexRef.current` is 0;
arm the interval unless one is already armed. -/
def startAnimation (cfg : Config) (s : PlayState) : PlayState :=
  if cfg.paths.length = 0 then s
  else
    let s1 :=
      if s.currentIndex = 0 then
        { s with scene := setInitialNodeColors cfg 0 s.scene }
      else s
    if s1.timerArmed then s1 else { s1 with timerArmed := true }

/-- `togglePause` (Graph.tsx lines 286-296): flip `isPaused`; when the old
value was `true` (un-pausing) re-start the animation if no interval is armed;
when it was `false` (pausing) clear the interval. -/
def togglePause (cfg : Config) (s : PlayState) : PlayState :=
  let s1 := { s with isPaused := !s.isPaused }
  if s.isPaused then
    if s1.timerArmed then s1 else startAnimation cfg s1
  else
    { s1 with timerArmed := false }

/-- `resetVisualization` from the imperative handle (Graph.tsx lines
297-323): clear the interval, zero the index, clear progress and flags, run
`setInitialNodeColors` (at index 0), then force every line neutral and every
circle white with the start/goal recoloring pass. -/
def resetVisualization (cfg : Config) (s : PlayState) : PlayState :=
  let sc1 := setInitialNodeColors cfg 0 s.scene
  let sc2 : Scene := { sc1 with lines := sc1.lines.map (fun l =>
      { l with stroke := Color.black, strokeWidth := 1 }) }
  let sc3 : Scene := { sc2 with circles := sc2.circles.map (fun c =>
      { c with fill :=
          if cfg.startNode = some c.dataLabel then Color.red
          else if cfg.goalNode = some c.dataLabel then Color.green
          else Color.white }) }
  { currentIndex := 0, isPaused := false, isComplete := false,
    timerArmed := false, currentStep := none,
    completedCount := s.completedCount, scene := sc3 }

/-- The viewport-resize path: `calculateDimensions` updates `dimensions`,
the draw effect reruns `drawGraph` (full static rebuild), and the animation
effect re-runs `startAnimation` (its dependency list contains `dimensions`).
None of the playback refs or flags are touched. -/
def resizeRedraw (cfg : Config) (s : PlayState) : PlayState :=
  startAnimation cfg { s with scene := drawGraph cfg }

/-- The events that can hit the controller during a run. -/
inductive Ev where
  | start
  | tick
  | toggle
  | reset
  | resize
deriving DecidableEq, Repr

/-- One event: a `tick` fires only while the interval is armed (cancellation
is synchronous — `clearInterval` guarantees no further tick). -/
def step (cfg : Config) (s : PlayState) : Ev → PlayState
  | Ev.start => startAnimation cfg s
  | Ev.tick => if s.timerArmed then animate cfg s else s
  | Ev.toggle => togglePause cfg s
  | Ev.reset => resetVisualization cfg s
  | Ev.resize => resizeRedraw cfg s

/-- The state right after mount: index 0, nothing armed, scene as built by
`drawGraph`. -/
def initState (cfg : Config) : PlayState :=
  { currentIndex := 0, isPaused := false, isComplete := false,
    timerArmed := false, currentStep := none, completedCount := 0,
    scene := drawGraph cfg }

/-- Fold a list of events over the controller from a given state. -/
def runFrom (cfg : Config) (s : PlayState) : List Ev → PlayState
  | [] => s
  | e :: es => runFrom cfg (step cfg s e) es

/-- A run: events folded from the mount state. -/
def run (cfg : Config) (es : List Ev) : PlayState :=
  runFrom cfg (initState cfg) es

/-! ## Concrete instances used by counterexamples and witnesses -/

/-- Node `A` at index 0. -/
def nodeA : GNode := { index := 0, x := 100, y := 100, label := "A" }

/-- Node `B` at index 1. -/
def nodeB : GNode := { index := 1, x := 300, y := 200, label := "B" }

/-- Node `C` at index 2. -/
def nodeC : GNode := { index := 2, x := 500, y := 300, label := "C" }

/-- Node `D` at index 3. -/
def nodeD : GNode := { index := 3, x := 700, y := 500, label := "D" }

/-- A three-node dfs run `A → B → C` with start `A` and goal `C` (the path
drains the spec's two-step scenario). -/
def cfgABC : Config :=
  { data := { nodes := [nodeA, nodeB, nodeC],
              links := [ { source := 0, target := 1, distance := 5 },
                         { source := 1, target := 2, distance := 7 } ] },
    paths := [("A", "B"), ("B", "C")],
    algorithm := "dfs",
    startNode := some "A",
    goalNode := some "C",
    smallView := false }

/-- A run with an empty path sequence (search produced no steps). -/
def cfgEmpty : Config :=
  { data := { nodes := [nodeA], links := [] },
    paths := [],
    algorithm := "dfs",
    startNode := some "A",
    goalNode := some "A",
    smallView := false }

/-- A dfs run with three steps sharing the source `A`. -/
def cfgQuad : Config :=
  { data := { nodes := [nodeA, nodeB, nodeC, nodeD],
              links := [ { source := 0, target := 1, distance := 3 },
                         { source := 0, target := 2, distance := 4 },
                         { source := 0, target := 3, distance := 5 } ] },
    paths := [("A", "B"), ("A", "C"), ("A", "D")],
    algorithm := "dfs",
    startNode := some "A",
    goalNode := some "D",
    smallView := false }

/-- The same graph and paths as `cfgQuad` but replayed as bfs. -/
def cfgQuadBfs : Config :=
  { cfgQuad with algorithm := "bfs" }

/-- A run whose second step names a label with no matching node. -/
def cfgMissing : Config :=
  { data := { nodes := [nodeA], links := [] },
    paths := [("X", "Y")],
    algorithm := "dfs",
    startNode := some "A",
    goalNode := some "A",
    smallView := false }

/-- A dfs run where the step `("A","B")` traverses the edge stored as
`(1, 0)` in the reverse orientation (it resolves to indices `(0, 1)`). -/
def cfgRev : Config :=
  { data := { nodes := [nodeA, nodeB, nodeC],
              links := [ { source := 0, target := 2, distance := 4 },
                         { source := 1, target := 0, distance := 3 } ] },
    paths := [("A", "C"), ("A", "B")],
    algorithm := "dfs",
    startNode := some "A",
    goalNode := some "C",
    smallView := false }

/-! ## Control-field lemmas

These record which `PlayState` fields each operation can touch; they are the
bread and butter of the invariant and trace proofs below. -/

theorem setInitialNodeColors_lines (cfg : Config) (idx : Nat) (sc : Scene) :
    (setInitialNodeColors cfg idx sc).lines = sc.lines := rfl

theorem startAnimation_ctrl (cfg : Config) (s : PlayState) :
    (startAnimation cfg s).currentIndex = s.currentIndex ∧
    (startAnimation cfg s).isPaused = s.isPaused ∧
    (startAnimation cfg s).isComplete = s.isComplete ∧
    (startAnimation cfg s).completedCount = s.completedCount ∧
    (startAnimation cfg s).scene.lines = s.scene.lines := by
  unfold startAnimation
  by_cases h1 : cfg.paths.length = 0 <;>
    by_cases h2 : s.currentIndex = 0 <;>
      simp [h1, h2, setInitialNodeColors_lines] <;>
        split <;> simp [setInitialNodeColors_lines]

theorem startAnimation_armed (cfg : Config) (s : PlayState)
    (h : cfg.paths.length ≠ 0) :
    (startAnimation cfg s).timerArmed = true := by
  unfold startAnimation
  by_cases h2 : s.currentIndex = 0 <;> simp [h, h2] <;> split <;> simp_all

theorem startAnimation_of_empty (cfg : Config) (s : PlayState)
    (h : cfg.paths.length = 0) :
    startAnimation cfg s = s := by
  unfold startAnimation
  simp [h]

theorem togglePause_ctrl (cfg : Config) (s : PlayState) :
    (togglePause cfg s).currentIndex = s.currentIndex ∧
    (togglePause cfg s).isComplete = s.isComplete ∧
    (togglePause cfg s).completedCount = s.completedCount ∧
    (togglePause cfg s).scene.lines = s.scene.lines := by
  unfold togglePause
  by_cases h1 : s.isPaused <;> simp [h1]
  · split
    · simp
    · exact ⟨(startAnimation_ctrl cfg _).1, (startAnimation_ctrl cfg _).2.2.1,
        (startAnimation_ctrl cfg _).2.2.2.1, (startAnimation_ctrl cfg _).2.2.2.2⟩

theorem resetVisualization_ctrl (cfg : Config) (s : PlayState) :
    (resetVisualization cfg s).currentIndex = 0 ∧
    (resetVisualization cfg s).isPaused = false ∧
    (resetVisualization cfg s).isComplete = false ∧
    (resetVisualization cfg s).timerArmed = false ∧
    (resetVisualization cfg s).completedCount = s.completedCount := by
  unfold resetVisualization
  exact ⟨rfl, rfl, rfl, rfl, rfl⟩

theorem animate_of_paused (cfg : Config) (s : PlayState)
    (h : s.isPaused = true) : animate cfg s = s := by
  unfold animate
  simp [h]

theorem animate_scene (cfg : Config) (s : PlayState) (h : s.isPaused = false) :
    (animate cfg s).scene =
      (applyStep cfg s.currentIndex s.scene s.currentStep).1 := by
  unfold animate
  simp only [h, Bool.false_eq_true, if_false]
  split <;> rfl

theorem animate_final (cfg : Config) (s : PlayState)
    (hp : s.isPaused = false) (hf : s.currentIndex + 1 ≥ cfg.paths.length) :
    (animate cfg s).currentIndex = s.currentIndex ∧
    (animate cfg s).isPaused = s.isPaused ∧
    (animate cfg s).isComplete = true ∧
    (animate cfg s).timerArmed = false ∧
    (animate cfg s).completedCount = s.completedCount + 1 := by
  unfold animate
  simp [hp, hf]

theorem animate_nonfinal (cfg : Config) (s : PlayState)
    (hp : s.isPaused = false) (hf : s.currentIndex + 1 < cfg.paths.length) :
    (animate cfg s).currentIndex = s.currentIndex + 1 ∧
    (animate cfg s).isPaused = s.isPaused ∧
    (animate cfg s).isComplete = s.isComplete ∧
    (animate cfg s).timerArmed = s.timerArmed ∧
    (animate cfg s).completedCount = s.completedCount := by
  unfold animate
  simp [hp, Nat.not_le.mpr hf]

theorem runFrom_append (cfg : Config) (s : PlayState) (l1 l2 : List Ev) :
    runFrom cfg s (l1 ++ l2) = runFrom cfg (runFrom cfg s l1) l2 := by
  induction l1 generalizing s with
  | nil => rfl
  | cons e es ih => simp [runFrom, ih]

theorem runFrom_tick_unarmed (cfg : Config) (s : PlayState)
    (h : s.timerArmed = false) (m : Nat) :
    runFrom cfg s (List.replicate m Ev.tick) = s := by
  induction m with
  | zero => rfl
  | succ k ih => simp [List.replicate, runFrom, step, h, ih]

theorem animate_index_cases (cfg : Config) (s : PlayState) :
    (animate cfg s).currentIndex = s.currentIndex ∨
      ((animate cfg s).currentIndex = s.currentIndex + 1 ∧
        s.currentIndex + 1 < cfg.paths.length) := by
  by_cases hp : s.isPaused
  · left; rw [animate_of_paused cfg s hp]
  · by_cases hf : s.currentIndex + 1 ≥ cfg.paths.length
    · left
      exact (animate_final cfg s (Bool.eq_false_iff.mpr hp) hf).1
    · right
      refine ⟨(animate_nonfinal cfg s (Bool.eq_false_iff.mpr hp) ?_).1, ?_⟩ <;>
        omega

/-- Running `k` non-final ticks from an armed, unpaused, incomplete state
advances the index by exactly `k` and changes none of the other control
fields. -/
theorem drain_loop (cfg : Config) (k : Nat) :
    ∀ s : PlayState, s.timerArmed = true → s.isPaused = false →
      s.isComplete = false → s.currentIndex + k < cfg.paths.length →
      (runFrom cfg s (List.replicate k Ev.tick)).currentIndex
          = s.currentIndex + k ∧
        (runFrom cfg s (List.replicate k Ev.tick)).timerArmed = true ∧
        (runFrom cfg s (List.replicate k Ev.tick)).isPaused = false ∧
        (runFrom cfg s (List.replicate k Ev.tick)).isComplete = false ∧
        (runFrom cfg s (List.replicate k Ev.tick)).completedCount
          = s.completedCount := by
  induction k with
  | zero => intro s ha hp hc _; simp [runFrom, ha, hp, hc]
  | succ k ih =>
    intro s ha hp hc hlt
    have hf : s.currentIndex + 1 < cfg.paths.length := by omega
    obtain ⟨h1, h2, h3, h4, h5⟩ := animate_nonfinal cfg s hp hf
    rw [List.replicate_succ]
    simp only [runFrom, step, ha, if_true]
    have := ih (animate cfg s) (by rw [h4, ha]) (by rw [h2, hp])
      (by rw [h3, hc]) (by rw [h1]; omega)
    rw [h1] at this
    exact ⟨by rw [this.1]; omega, this.2.1, this.2.2.1, this.2.2.2.1,
      by rw [this.2.2.2.2, h5]⟩

/-- A full drain: `start` followed by `len(paths) + m` ticks on a nonempty
path sequence lands at index `len - 1`, complete, with the interval cleared,
and fires the completion callback exactly once; the `m` extra ticks never
fire. -/
theorem drain_spec (cfg : Config) (h : cfg.paths ≠ []) (m : Nat) :
    (run cfg (Ev.start :: List.replicate (cfg.paths.length + m)
        Ev.tick)).currentIndex = cfg.paths.length - 1 ∧
      (run cfg (Ev.start :: List.replicate (cfg.paths.length + m)
        Ev.tick)).isComplete = true ∧
      (run cfg (Ev.start :: List.replicate (cfg.paths.length + m)
        Ev.tick)).timerArmed = false ∧
      (run cfg (Ev.start :: List.replicate (cfg.paths.length + m)
        Ev.tick)).completedCount = 1 := by
  have hlen : cfg.paths.length ≠ 0 := fun hl =>
    h (List.length_eq_zero.mp hl)
  obtain ⟨n, hn⟩ := Nat.exists_eq_succ_of_ne_zero hlen
  set s0 := startAnimation cfg (initState cfg) with hs0
  have hstart : run cfg (Ev.start :: List.replicate (cfg.paths.length + m)
      Ev.tick) = runFrom cfg s0 (List.replicate (cfg.paths.length + m)
        Ev.tick) := rfl
  obtain ⟨c1, _, c3, c4, _⟩ := startAnimation_ctrl cfg (initState cfg)
  have ha0 : s0.timerArmed = true := startAnimation_armed cfg _ hlen
  have hi0 : s0.currentIndex = 0 := c1
  have hp0 : s0.isPaused = false := by
    rw [hs0, (startAnimation_ctrl cfg (initState cfg)).2.1]; rfl
  have hc0 : s0.isComplete = false := by rw [hs0, c3]; rfl
  have hn0 : s0.completedCount = 0 := by rw [hs0, c4]; rfl
  have hsplit : List.replicate (cfg.paths.length + m) Ev.tick
      = List.replicate n Ev.tick
        ++ (Ev.tick :: List.replicate m Ev.tick) := by
    rw [hn]
    rw [show n + 1 + m = n + (m + 1) by omega, List.replicate_add,
      List.replicate_succ]
  rw [hstart, hsplit, runFrom_append]
  set s1 := runFrom cfg s0 (List.replicate n Ev.tick) with hs1
  obtain ⟨d1, d2, d3, d4, d5⟩ := drain_loop cfg n s0 ha0 hp0 hc0
    (by rw [hi0, hn]; omega)
  rw [← hs1] at d1 d2 d3 d4 d5
  rw [hi0] at d1
  simp only [runFrom, step, ← hs1, d2, if_true]
  have hfin : s1.currentIndex + 1 ≥ cfg.paths.length := by
    rw [d1, hn]; omega
  obtain ⟨e1, _, e3, e4, e5⟩ := animate_final cfg s1 d3 hfin
  rw [runFrom_tick_unarmed cfg _ e4 m]
  refine ⟨?_, e3, e4, ?_⟩
  · rw [e1, d1, hn]; omega
  · rw [e5, d5, hn0]

/-- Invariant preservation lifts to whole runs. -/
theorem runFrom_inv (cfg : Config) (P : PlayState → Prop)
    (hstep : ∀ s e, P s → P (step cfg s e)) :
    ∀ es s, P s → P (runFrom cfg s es) := by
  intro es
  induction es with
  | nil => intro s hs; exact hs
  | cons e es ih => intro s hs; exact ih _ (hstep s e hs)

/-! ## Selection lemmas: how `select('#id').attr(...)` interacts with
document lookups -/

theorem selectLine_of_absent (ls : List LineElem) (a b : Nat)
    (f : LineElem → LineElem)
    (h : ∀ l ∈ ls, ¬(l.src = a ∧ l.tgt = b)) :
    selectLine ls a b f = ls := by
  induction ls with
  | nil => rfl
  | cons l rest ih =>
    rw [selectLine, if_neg (h l (List.mem_cons_self _ _)),
      ih (fun x hx => h x (List.mem_cons_of_mem _ hx))]

theorem selectLine_keys (ls : List LineElem) (a b : Nat)
    (f : LineElem → LineElem)
    (hf : ∀ l, (f l).src = l.src ∧ (f l).tgt = l.tgt) :
    ∀ l' ∈ selectLine ls a b f, ∃ l ∈ ls, l'.src = l.src ∧ l'.tgt = l.tgt := by
  induction ls with
  | nil => intro l' hl'; simp [selectLine] at hl'
  | cons l rest ih =>
    intro l' hl'
    rw [selectLine] at hl'
    by_cases hk : l.src = a ∧ l.tgt = b
    · rw [if_pos hk] at hl'
      rcases List.mem_cons.mp hl' with h1 | h2
      · exact ⟨l, List.mem_cons_self _ _, by rw [h1]; exact (hf l).1,
          by rw [h1]; exact (hf l).2⟩
      · exact ⟨l', List.mem_cons_of_mem _ h2, rfl, rfl⟩
    · rw [if_neg hk] at hl'
      rcases List.mem_cons.mp hl' with h1 | h2
      · exact ⟨l, List.mem_cons_self _ _, by rw [h1], by rw [h1]⟩
      · obtain ⟨l0, hl0, he⟩ := ih l' h2
        exact ⟨l0, List.mem_cons_of_mem _ hl0, he⟩

theorem linePredicate_eq (l : LineElem) (a b : Nat) :
    (l.src == a && l.tgt == b) = decide (l.src = a ∧ l.tgt = b) := by
  by_cases h1 : l.src = a <;> by_cases h2 : l.tgt = b <;> simp [h1, h2]

theorem find?_selectLine_self (ls : List LineElem) (a b : Nat)
    (f : LineElem → LineElem)
    (hf : ∀ l, (f l).src = l.src ∧ (f l).tgt = l.tgt) :
    (selectLine ls a b f).find? (fun l => l.src == a && l.tgt == b)
      = (ls.find? (fun l => l.src == a && l.tgt == b)).map f := by
  induction ls with
  | nil => rfl
  | cons l rest ih =>
    by_cases hk : l.src = a ∧ l.tgt = b
    · rw [selectLine, if_pos hk]
      have hp : ((f l).src == a && (f l).tgt == b) = true := by
        rw [linePredicate_eq]
        exact decide_eq_true ⟨(hf l).1.trans hk.1, (hf l).2.trans hk.2⟩
      have hp' : (l.src == a && l.tgt == b) = true := by
        rw [linePredicate_eq]; exact decide_eq_true hk
      simp only [List.find?_cons]
      rw [hp, hp']
      rfl
    · rw [selectLine, if_neg hk]
      have hp : (l.src == a && l.tgt == b) = false := by
        rw [linePredicate_eq]; exact decide_eq_false hk
      simp only [List.find?_cons]
      rw [hp]
      exact ih

theorem find?_selectLine_ne (ls : List LineElem) (x y a b : Nat)
    (f : LineElem → LineElem)
    (hf : ∀ l, (f l).src = l.src ∧ (f l).tgt = l.tgt)
    (hne : ¬(x = a ∧ y = b)) :
    (selectLine ls x y f).find? (fun l => l.src == a && l.tgt == b)
      = ls.find? (fun l => l.src == a && l.tgt == b) := by
  induction ls with
  | nil => rfl
  | cons l rest ih =>
    by_cases hk : l.src = x ∧ l.tgt = y
    · rw [selectLine, if_pos hk]
      have habs : ¬(l.src = a ∧ l.tgt = b) := fun hc =>
        hne ⟨hk.1 ▸ hc.1, hk.2 ▸ hc.2⟩
      have hp : ((f l).src == a && (f l).tgt == b) = false := by
        rw [linePredicate_eq]
        exact decide_eq_false (fun hc =>
          habs ⟨(hf l).1 ▸ hc.1, (hf l).2 ▸ hc.2⟩)
      have hp' : (l.src == a && l.tgt == b) = false := by
        rw [linePredicate_eq]; exact decide_eq_false habs
      simp only [List.find?_cons]
      rw [hp, hp']
    · rw [selectLine, if_neg hk]
      simp only [List.find?_cons]
      cases hp : (l.src == a && l.tgt == b) with
      | true => rfl
      | false => exact ih

theorem find?_selectCircle_self (cs : List CircleElem) (i : Nat)
    (f : CircleElem → CircleElem) (hf : ∀ c, (f c).id = c.id) :
    (selectCircle cs i f).find? (fun c => c.id == i)
      = (cs.find? (fun c => c.id == i)).map f := by
  induction cs with
  | nil => rfl
  | cons c rest ih =>
    by_cases hk : c.id = i
    · rw [selectCircle, if_pos hk]
      have hp : ((f c).id == i) = true := beq_iff_eq.mpr ((hf c).trans hk)
      have hp' : (c.id == i) = true := beq_iff_eq.mpr hk
      simp only [List.find?_cons]
      rw [hp, hp']
      rfl
    · rw [selectCircle, if_neg hk]
      have hp : (c.id == i) = false := by simpa using hk
      simp only [List.find?_cons]
      rw [hp]
      exact ih

theorem find?_some_of_exists {α : Type} (p : α → Bool) (l : List α)
    (h : ∃ x ∈ l, p x = true) : ∃ y, l.find? p = some y := by
  induction l with
  | nil => obtain ⟨x, hx, _⟩ := h; simp at hx
  | cons a rest ih =>
    cases hp : p a with
    | true => exact ⟨a, by simp only [List.find?_cons]; rw [hp]⟩
    | false =>
      obtain ⟨x, hx, hpx⟩ := h
      rcases List.mem_cons.mp hx with h1 | h2
      · rw [h1] at hpx; rw [hpx] at hp; cases hp
      · obtain ⟨y, hy⟩ := ih ⟨x, h2, hpx⟩
        exact ⟨y, by simp only [List.find?_cons]; rw [hp]; exact hy⟩

theorem togglePause_of_empty (cfg : Config) (s : PlayState)
    (h : cfg.paths.length = 0) :
    togglePause cfg s =
      if s.isPaused then { s with isPaused := false }
      else { s with isPaused := true, timerArmed := false } := by
  unfold togglePause
  by_cases hp : s.isPaused <;> simp [hp]
  intro _
  rw [startAnimation_of_empty _ _ h]

/-! ## Claim C2 — empty-path run -/

/-- C2, counterexample.  The claim says `start()` on `paths = []`
immediately transitions to `Complete` and fires the completion callback
once.  On the code, `startAnimation` early-returns on `!paths.length`: after
`start` the controller is not complete, the callback count is 0, and no
interval was armed. -/
theorem C2_counterexample :
    cfgEmpty.paths.length = 0 ∧
    (run cfgEmpty [Ev.start]).isComplete = false ∧
    (run cfgEmpty [Ev.start]).completedCount = 0 ∧
    (run cfgEmpty [Ev.start]).timerArmed = false := by decide

/-- C2, amended: if the path sequence has length 0, `start()` is a no-op —
it leaves the whole controller state (phase, step index, callback count,
scene) unchanged and never schedules a tick; in particular it does not
transition to `Complete` and the completion callback is not invoked. -/
theorem C2_amended (cfg : Config) (s : PlayState) (h : cfg.paths = []) :
    startAnimation cfg s = s :=
  startAnimation_of_empty cfg s (by rw [h]; rfl)

/-- C2, witness for the amended theorem at `cfgEmpty`. -/
theorem C2_amended_witness :
    startAnimation cfgEmpty (initState cfgEmpty) = initState cfgEmpty :=
  C2_amended cfgEmpty (initState cfgEmpty) rfl

/-! ## Claim C3 — exactly-once completion -/

/-- C3, counterexample.  The claim says the completion callback is never
invoked a second time during the same run, including after togglePause
calls made in the `Complete` state.  On the code, after the two-step run of
`cfgABC` drains (callback fired once), two `togglePause` calls — both made
while `isComplete` — re-arm the interval, and the next tick re-runs the
completion branch: the callback fires a second time. -/
theorem C3_counterexample :
    (run cfgABC [Ev.start, Ev.tick, Ev.tick]).isComplete = true ∧
    (run cfgABC [Ev.start, Ev.tick, Ev.tick]).completedCount = 1 ∧
    (run cfgABC [Ev.start, Ev.tick, Ev.tick, Ev.toggle]).isComplete = true ∧
    (run cfgABC [Ev.start, Ev.tick, Ev.tick, Ev.toggle,
      Ev.toggle, Ev.tick]).completedCount = 2 := by decide

/-- C3, amended: for a nonempty path sequence, a `start()` followed by any
number of ticks (with no pause toggles) fires the completion callback
exactly once, no matter how many extra ticks follow the drain; and
`togglePause` and `resetVisualization` never themselves invoke the
callback.  (Un-pausing while `Complete` re-arms the interval and the next
tick fires the callback again, so the exactly-once guarantee requires no
togglePause after completion.) -/
theorem C3_amended :
    (∀ cfg m, cfg.paths ≠ [] →
      (run cfg (Ev.start :: List.replicate (cfg.paths.length + m)
        Ev.tick)).completedCount = 1) ∧
    (∀ cfg s, (togglePause cfg s).completedCount = s.completedCount) ∧
    (∀ cfg s, (resetVisualization cfg s).completedCount
        = s.completedCount) :=
  ⟨fun cfg m h => (drain_spec cfg h m).2.2.2,
   fun cfg s => (togglePause_ctrl cfg s).2.2.1,
   fun cfg s => (resetVisualization_ctrl cfg s).2.2.2.2⟩

/-- C3, witness for the amended theorem: a drain of `cfgQuad` with two
extra ticks fires the callback exactly once. -/
theorem C3_amended_witness :
    (run cfgQuad (Ev.start :: List.replicate (cfgQuad.paths.length + 2)
      Ev.tick)).completedCount = 1 :=
  C3_amended.1 cfgQuad 2 (by decide)

/-! ## Claim C4 — totality and no-op toggles in Idle/Complete -/

/-- C4, counterexample.  The claim says toggling pause while `Complete` is
a no-op that changes neither stepIndex, nor the timer, nor the visuals.
On the code: after the run of `cfgABC` completes (interval cleared), two
`togglePause` calls — each made while `isComplete = true` — leave the
interval armed again: the timer did change. -/
theorem C4_counterexample :
    (run cfgABC [Ev.start, Ev.tick, Ev.tick]).isComplete = true ∧
    (run cfgABC [Ev.start, Ev.tick, Ev.tick]).timerArmed = false ∧
    (run cfgABC [Ev.start, Ev.tick, Ev.tick, Ev.toggle]).isComplete
      = true ∧
    (run cfgABC [Ev.start, Ev.tick, Ev.tick, Ev.toggle,
      Ev.toggle]).timerArmed = true := by decide

/-- C4, amended: `togglePause` and `resetVisualization` are total — defined
in every controller state.  `togglePause` never changes `stepIndex`;
toggling in the pausing direction only sets the pause flag and clears the
interval; with an empty path sequence a toggle changes nothing but the
pause flag (and clears the interval when pausing); but toggling in the
un-pausing direction with a nonempty path sequence, no armed interval and a
nonzero step index (the situation after completion) re-arms the interval —
it is not a no-op.  `resetVisualization` always yields step index 0,
cleared flags and no interval. -/
theorem C4_amended :
    (∀ cfg s, (togglePause cfg s).currentIndex = s.currentIndex) ∧
    (∀ cfg s, s.isPaused = false →
      togglePause cfg s = { s with isPaused := true, timerArmed := false }) ∧
    (∀ cfg s, cfg.paths = [] →
      togglePause cfg s =
        if s.isPaused then { s with isPaused := false }
        else { s with isPaused := true, timerArmed := false }) ∧
    (∀ cfg s, s.isPaused = true → s.timerArmed = false → cfg.paths ≠ [] →
      s.currentIndex ≠ 0 →
      togglePause cfg s = { s with isPaused := false, timerArmed := true }) ∧
    (∀ cfg s, (resetVisualization cfg s).currentIndex = 0 ∧
      (resetVisualization cfg s).isPaused = false ∧
      (resetVisualization cfg s).isComplete = false ∧
      (resetVisualization cfg s).timerArmed = false) := by
  refine ⟨fun cfg s => (togglePause_ctrl cfg s).1, ?_, ?_, ?_, ?_⟩
  · intro cfg s hp
    simp [togglePause, hp]
  · intro cfg s h
    exact togglePause_of_empty cfg s (by rw [h]; rfl)
  · intro cfg s hp ht h hi
    have hlen : ¬cfg.paths.length = 0 := fun hl =>
      h (List.length_eq_zero.mp hl)
    simp [togglePause, startAnimation, hp, ht, hlen, hi]
  · intro cfg s
    exact ⟨(resetVisualization_ctrl cfg s).1,
      (resetVisualization_ctrl cfg s).2.1,
      (resetVisualization_ctrl cfg s).2.2.1,
      (resetVisualization_ctrl cfg s).2.2.2.1⟩

/-- C4, witness for the amended theorem: pausing from the mount state of
`cfgABC` only sets the pause flag. -/
theorem C4_amended_witness :
    togglePause cfgABC (initState cfgABC) =
      { initState cfgABC with isPaused := true, timerArmed := false } :=
  C4_amended.2.1 cfgABC (initState cfgABC) rfl

/-! ## Claim C5 — monotonic stepping -/

/-- C5, counterexample.  The claim (and the spec scenario) says that after a
run over a 2-step sequence drains, `stepIndex == 2 == len(paths)`.  On the
code, the completion test `currentIndexRef.current >= paths.length - 1`
runs before the increment and the completing tick returns without
incrementing: after `start` and 2 ticks over `cfgABC` the run is complete
with `stepIndex = 1`, not 2. -/
theorem C5_counterexample :
    cfgABC.paths.length = 2 ∧
    (run cfgABC [Ev.start, Ev.tick, Ev.tick]).isComplete = true ∧
    (run cfgABC [Ev.start, Ev.tick, Ev.tick]).currentIndex = 1 ∧
    (run cfgABC [Ev.start, Ev.tick, Ev.tick]).currentIndex ≠ 2 := by decide

/-- C5, amended: `stepIndex` is non-decreasing under every event except
`reset` (which starts a new run at 0); a tick that fires while running with
at least two steps left increments `stepIndex` by exactly 1, applying
`paths` strictly in sequence order; the final tick completes without
incrementing, so after a nonempty `n`-step sequence drains,
`stepIndex = n - 1` with the phase `Complete`. -/
theorem C5_amended :
    (∀ cfg s e, e ≠ Ev.reset →
      s.currentIndex ≤ (step cfg s e).currentIndex) ∧
    (∀ cfg s, s.timerArmed = true → s.isPaused = false →
      s.currentIndex + 1 < cfg.paths.length →
      (step cfg s Ev.tick).currentIndex = s.currentIndex + 1) ∧
    (∀ cfg, cfg.paths ≠ [] →
      (run cfg (Ev.start :: List.replicate cfg.paths.length
          Ev.tick)).currentIndex = cfg.paths.length - 1 ∧
        (run cfg (Ev.start :: List.replicate cfg.paths.length
          Ev.tick)).isComplete = true) := by
  refine ⟨?_, ?_, ?_⟩
  · intro cfg s e he
    cases e with
    | start =>
      simp only [step]
      rw [(startAnimation_ctrl cfg s).1]
    | tick =>
      simp only [step]
      split
      · rcases animate_index_cases cfg s with h | ⟨h, _⟩ <;> omega
      · exact le_refl _
    | toggle =>
      simp only [step]
      rw [(togglePause_ctrl cfg s).1]
    | reset => exact absurd rfl he
    | resize =>
      simp only [step, resizeRedraw]
      rw [(startAnimation_ctrl cfg _).1]
  · intro cfg s ha hp hlt
    simp only [step, ha, if_true]
    exact (animate_nonfinal cfg s hp hlt).1
  · intro cfg h
    have hd := drain_spec cfg h 0
    rw [Nat.add_zero] at hd
    exact ⟨hd.1, hd.2.1⟩

/-- C5, witness for the amended theorem: the drained run of `cfgABC` ends
at index `len - 1 = 1`, complete. -/
theorem C5_amended_witness :
    (run cfgABC (Ev.start :: List.replicate cfgABC.paths.length
        Ev.tick)).currentIndex = cfgABC.paths.length - 1 ∧
      (run cfgABC (Ev.start :: List.replicate cfgABC.paths.length
        Ev.tick)).isComplete = true :=
  C5_amended.2.2 cfgABC (by decide)

/-! ## Claim C6 — PlaybackState invariant -/

/-- C6, counterexample.  The claim says `stepIndex == len(paths)` implies
the phase is `Complete` in every reachable state.  On the code, with
`paths = []` the state after `start` has `stepIndex = 0 = len(paths)` and
is not complete (start is a no-op on empty paths). -/
theorem C6_counterexample :
    (run cfgEmpty [Ev.start]).currentIndex = cfgEmpty.paths.length ∧
    (run cfgEmpty [Ev.start]).isComplete = false := by decide

/-- C6, amended: in every reachable state of a run,
`0 ≤ stepIndex ≤ len(paths)`; when `paths` is nonempty, `stepIndex`
never reaches `len(paths)` (the completing tick stops at `len - 1`); when
`paths` is empty, `stepIndex` stays 0 (= `len(paths)`) and the phase never
becomes `Complete`. -/
theorem C6_amended (cfg : Config) (es : List Ev) :
    (run cfg es).currentIndex ≤ cfg.paths.length ∧
    (cfg.paths ≠ [] →
      (run cfg es).currentIndex < cfg.paths.length) ∧
    (cfg.paths = [] →
      (run cfg es).currentIndex = 0 ∧ (run cfg es).isComplete = false) := by
  by_cases h : cfg.paths = []
  · have hlen : cfg.paths.length = 0 := by rw [h]; rfl
    have key : (run cfg es).currentIndex = 0 ∧
        (run cfg es).isComplete = false ∧
        (run cfg es).timerArmed = false := by
      refine runFrom_inv cfg
        (fun s => s.currentIndex = 0 ∧ s.isComplete = false ∧
          s.timerArmed = false) ?_ es (initState cfg) ⟨rfl, rfl, rfl⟩
      intro s e hs
      cases e with
      | start =>
        simp only [step]
        rw [startAnimation_of_empty cfg s hlen]
        exact hs
      | tick => simp only [step, hs.2.2]; simpa using hs
      | toggle =>
        simp only [step]
        rw [togglePause_of_empty cfg s hlen]
        split
        · exact ⟨hs.1, hs.2.1, hs.2.2⟩
        · exact ⟨hs.1, hs.2.1, rfl⟩
      | reset =>
        exact ⟨(resetVisualization_ctrl cfg s).1,
          (resetVisualization_ctrl cfg s).2.2.1,
          (resetVisualization_ctrl cfg s).2.2.2.1⟩
      | resize =>
        simp only [step, resizeRedraw,
          startAnimation_of_empty cfg _ hlen]
        exact hs
    exact ⟨by rw [key.1]; exact Nat.zero_le _, fun hne => absurd h hne,
      fun _ => ⟨key.1, key.2.1⟩⟩
  · have hlen : ¬cfg.paths.length = 0 := fun hl =>
      h (List.length_eq_zero.mp hl)
    have key : (run cfg es).currentIndex < cfg.paths.length := by
      refine runFrom_inv cfg
        (fun s => s.currentIndex < cfg.paths.length) ?_ es
        (initState cfg) (by simpa [initState] using Nat.pos_of_ne_zero hlen)
      intro s e hs
      cases e with
      | start =>
        simp only [step]
        rw [(startAnimation_ctrl cfg s).1]
        exact hs
      | tick =>
        simp only [step]
        split
        · rcases animate_index_cases cfg s with h1 | ⟨h1, h2⟩ <;> omega
        · exact hs
      | toggle =>
        simp only [step]
        rw [(togglePause_ctrl cfg s).1]
        exact hs
      | reset =>
        simp only [step]
        rw [(resetVisualization_ctrl cfg s).1]
        exact Nat.pos_of_ne_zero hlen
      | resize =>
        simp only [step, resizeRedraw]
        rw [(startAnimation_ctrl cfg _).1]
        exact hs
    exact ⟨le_of_lt key, fun _ => key, fun he => absurd he h⟩

/-- C6, witness for the amended theorem: the empty-path run after `start`
sits at index 0, not complete. -/
theorem C6_amended_witness :
    (run cfgEmpty [Ev.start]).currentIndex = 0 ∧
      (run cfgEmpty [Ev.start]).isComplete = false :=
  (C6_amended cfgEmpty [Ev.start]).2.2 rfl

/-! ## Visual-layer lemmas for the node/edge coloring claims -/

theorem applyStep_missing (cfg : Config) (i : Nat) (sc : Scene)
    (cur : Option (String × String)) (sl tl : String)
    (hget : cfg.paths.get? i = some (sl, tl))
    (hmiss : findNode cfg.data sl = none ∨ findNode cfg.data tl = none) :
    applyStep cfg i sc cur = (sc, cur) := by
  unfold applyStep
  cases hfs : findNode cfg.data sl <;> cases hft : findNode cfg.data tl <;>
    simp only [hget, hfs, hft]
  rcases hmiss with hm | hm
  · rw [hfs] at hm; cases hm
  · rw [hft] at hm; cases hm

theorem animate_lines (cfg : Config) (s : PlayState)
    (hp : s.isPaused = false) :
    (animate cfg s).scene.lines =
      match cfg.paths.get? s.currentIndex with
      | none => s.scene.lines
      | some (sl, tl) =>
        match findNode cfg.data sl, findNode cfg.data tl with
        | some sn, some tn =>
          selectLine (revertLines cfg s.currentIndex sl s.scene.lines)
            sn.index tn.index (fun l =>
              { l with stroke := Color.red,
                       strokeWidth := if cfg.smallView then 5 else 10 })
        | _, _ => s.scene.lines := by
  rw [animate_scene cfg s hp]
  unfold applyStep
  cases hget : cfg.paths.get? s.currentIndex with
  | none => simp only [hget]
  | some p =>
    obtain ⟨sl, tl⟩ := p
    cases hfs : findNode cfg.data sl <;>
      cases hft : findNode cfg.data tl <;>
        simp only [hget, hfs, hft]

theorem revertLines_bfs (cfg : Config) (halg : cfg.algorithm = "bfs")
    (i : Nat) (sl : String) (ls : List LineElem) :
    revertLines cfg i sl ls = ls := by
  unfold revertLines
  rw [halg]
  simp

theorem revertLines_keys (cfg : Config) (i : Nat) (sl : String)
    (ls : List LineElem) :
    ∀ l' ∈ revertLines cfg i sl ls,
      ∃ l ∈ ls, l'.src = l.src ∧ l'.tgt = l.tgt := by
  intro l' hl'
  unfold revertLines at hl'
  by_cases halg : cfg.algorithm ≠ "bfs"
  · rw [if_pos halg] at hl'
    cases hfind : (cfg.paths.take i).find? (fun p => p.1 == sl) with
    | none => rw [hfind] at hl'; exact ⟨l', hl', rfl, rfl⟩
    | some prev =>
      rw [hfind] at hl'
      cases hps : findNode cfg.data prev.1 with
      | none =>
        cases hpt : findNode cfg.data prev.2 <;>
          simp only [hps, hpt] at hl' <;> exact ⟨l', hl', rfl, rfl⟩
      | some psn =>
        cases hpt : findNode cfg.data prev.2 with
        | none => simp only [hps, hpt] at hl'; exact ⟨l', hl', rfl, rfl⟩
        | some ptn =>
          simp only [hps, hpt] at hl'
          exact selectLine_keys ls psn.index ptn.index
            (fun l => { l with stroke := Color.black, strokeWidth := 1 })
            (fun l => ⟨rfl, rfl⟩) l' hl'
  · rw [if_neg halg] at hl'
    exact ⟨l', hl', rfl, rfl⟩

theorem lineStroke_red_selectLine (ls : List LineElem) (x y w a b : Nat)
    (h : (ls.find? (fun l => l.src == a && l.tgt == b)).map
        (fun l => l.stroke) = some Color.red) :
    ((selectLine ls x y (fun l =>
        { l with stroke := Color.red, strokeWidth := w })).find?
      (fun l => l.src == a && l.tgt == b)).map (fun l => l.stroke)
      = some Color.red := by
  by_cases hk : x = a ∧ y = b
  · obtain ⟨rfl, rfl⟩ := hk
    rw [find?_selectLine_self ls x y
      (fun l => { l with stroke := Color.red, strokeWidth := w })
      (fun l => ⟨rfl, rfl⟩)]
    cases hfind : ls.find? (fun l => l.src == x && l.tgt == y) with
    | none => rw [hfind] at h; cases h
    | some l0 => simp
  · rw [find?_selectLine_ne ls x y a b
      (fun l => { l with stroke := Color.red, strokeWidth := w })
      (fun l => ⟨rfl, rfl⟩) hk]
    exact h

theorem circleFill_selectCircle_red (cs : List CircleElem) (i : Nat)
    (h : ∃ c ∈ cs, c.id = i) :
    ((selectCircle cs i (fun c => { c with fill := Color.red })).find?
      (fun c => c.id == i)).map (fun c => c.fill) = some Color.red := by
  rw [find?_selectCircle_self cs i (fun c => { c with fill := Color.red })
    (fun c => rfl)]
  obtain ⟨c0, hc0⟩ := find?_some_of_exists (fun c => c.id == i) cs
    (by obtain ⟨c, hcm, hci⟩ := h; exact ⟨c, hcm, beq_iff_eq.mpr hci⟩)
  rw [hc0]
  rfl

/-! ## Claim C1 — start/goal color precedence -/

/-- C1, counterexample.  The claim says the goal-labeled node keeps the
goal color even when it is the target of the step applied at the current
tick.  On the code, the tick paints the target circle red unconditionally
(`g.select('#circle-target').attr('fill','red')`, Graph.tsx:260-261): in
the `cfgABC` run the goal node C starts green but is red after the tick
that targets it. -/
theorem C1_counterexample :
    cfgABC.goalNode = some "C" ∧
    circleFill (initState cfgABC).scene 2 = some Color.green ∧
    circleFill (run cfgABC [Ev.start, Ev.tick, Ev.tick]).scene 2
      = some Color.red := by decide

/-- C1, amended: the start/goal precedence holds in the stepIndex-derived
recoloring (`setInitialNodeColors`, applied at stepIndex 0 and on reset):
there a start-labeled circle is red and a goal-labeled (non-start) circle
is green, never overridden by the visited rule.  During a tick, however,
the step's target circle is painted the visited color red unconditionally,
so a tick whose target is the goal overwrites the goal color; the start
label keeps red only because the start color coincides with the visited
color. -/
theorem C1_amended :
    (∀ (cfg : Config) (idx : Nat) (sc : Scene) (c : CircleElem),
      c ∈ (setInitialNodeColors cfg idx sc).circles →
      (cfg.startNode = some c.dataLabel → c.fill = Color.red) ∧
      (cfg.startNode ≠ some c.dataLabel → cfg.goalNode = some c.dataLabel →
        c.fill = Color.green)) ∧
    (∀ (cfg : Config) (s : PlayState) (sl tl : String) (sn tn : GNode),
      s.isPaused = false →
      cfg.paths.get? s.currentIndex = some (sl, tl) →
      findNode cfg.data sl = some sn →
      findNode cfg.data tl = some tn →
      (∃ c ∈ s.scene.circles, c.id = tn.index) →
      circleFill (animate cfg s).scene tn.index = some Color.red) := by
  constructor
  · intro cfg idx sc c hc
    unfold setInitialNodeColors at hc
    simp only [List.mem_map] at hc
    obtain ⟨c0, _, rfl⟩ := hc
    constructor
    · intro hstart
      have h1 : cfg.startNode = some c0.dataLabel := hstart
      simp [h1]
    · intro hns hgoal
      have h1 : cfg.startNode ≠ some c0.dataLabel := hns
      have h2 : cfg.goalNode = some c0.dataLabel := hgoal
      simp [h1, h2]
  · intro cfg s sl tl sn tn hp hget hfs hft hex
    unfold circleFill
    rw [animate_scene cfg s hp]
    unfold applyStep
    simp only [hget, hfs, hft]
    exact circleFill_selectCircle_red s.scene.circles tn.index hex

/-- C1, witness for the amended theorem: in `cfgABC`, the goal circle is
green after the stepIndex-0 recoloring, and the first tick paints the
target circle (node B, index 1) red. -/
theorem C1_amended_witness :
    ((⟨2, "C", Color.green⟩ : CircleElem).fill = Color.green) ∧
    circleFill (animate cfgABC (initState cfgABC)).scene 1
      = some Color.red :=
  ⟨(C1_amended.1 cfgABC 0 (drawGraph cfgABC) ⟨2, "C", Color.green⟩
      (by decide)).2 (by decide) (by decide),
   C1_amended.2 cfgABC (initState cfgABC) "A" "B" nodeA nodeB rfl
      (by decide) (by decide) (by decide) (by decide)⟩

/-! ## Claim C8 — missing-reference tolerance -/

/-- C8, counterexample.  The claim says a tick whose step names a missing
label still advances stepIndex by 1.  On the code, when the missing step is
the final one the completing tick returns without incrementing: in
`cfgMissing` (one step `("X","Y")`, neither label present) the tick leaves
stepIndex at 0 (not 1) while completing the run. -/
theorem C8_counterexample :
    findNode cfgMissing.data "X" = none ∧
    (run cfgMissing [Ev.start, Ev.tick]).currentIndex = 0 ∧
    (run cfgMissing [Ev.start, Ev.tick]).isComplete = true ∧
    (run cfgMissing [Ev.start, Ev.tick]).completedCount = 1 := by decide

/-- C8, amended: a tick whose step names an unresolvable source or target
label changes no node or edge style and no progress text, and performs
exactly the bookkeeping of a resolvable step: it advances stepIndex by 1
when at least two steps remain, and when the step is final it completes the
run (clearing the interval and firing the callback) without advancing.
The condition is non-fatal: the run continues to completion. -/
theorem C8_amended (cfg : Config) (s : PlayState) (sl tl : String)
    (hp : s.isPaused = false)
    (hget : cfg.paths.get? s.currentIndex = some (sl, tl))
    (hmiss : findNode cfg.data sl = none ∨ findNode cfg.data tl = none) :
    (animate cfg s).scene = s.scene ∧
    (animate cfg s).currentStep = s.currentStep ∧
    (s.currentIndex + 1 < cfg.paths.length →
      animate cfg s = { s with currentIndex := s.currentIndex + 1 }) ∧
    (s.currentIndex + 1 ≥ cfg.paths.length →
      animate cfg s = { s with isComplete := true, timerArmed := false,
                               completedCount := s.completedCount + 1 }) := by
  have hap : applyStep cfg s.currentIndex s.scene s.currentStep
      = (s.scene, s.currentStep) :=
    applyStep_missing cfg s.currentIndex s.scene s.currentStep sl tl
      hget hmiss
  unfold animate
  simp only [hp, Bool.false_eq_true, if_false, hap]
  refine ⟨?_, ?_, ?_, ?_⟩
  · split <;> rfl
  · split <;> rfl
  · intro hlt
    rw [if_neg (by omega : ¬cfg.paths.length ≤ s.currentIndex + 1)]
  · intro hge
    rw [if_pos (by omega : cfg.paths.length ≤ s.currentIndex + 1)]

/-- C8, witness for the amended theorem at the `cfgMissing` run: the
completing tick on the missing step leaves the scene untouched and fires
the callback. -/
theorem C8_amended_witness :
    (animate cfgMissing (run cfgMissing [Ev.start])).scene
        = (run cfgMissing [Ev.start]).scene ∧
      animate cfgMissing (run cfgMissing [Ev.start])
        = { run cfgMissing [Ev.start] with
                isComplete := true,
                timerArmed := false,
                completedCount :=
                  (run cfgMissing [Ev.start]).completedCount + 1 } :=
  ⟨(C8_amended cfgMissing (run cfgMissing [Ev.start]) "X" "Y" (by decide)
      (by decide) (Or.inl (by decide))).1,
   (C8_amended cfgMissing (run cfgMissing [Ev.start]) "X" "Y" (by decide)
      (by decide) (Or.inl (by decide))).2.2.2 (by decide)⟩

/-! ## Claim C9 — resize preserves playback state but not visuals -/

/-- C9, counterexample.  The claim says the visuals after a mid-run resize
are identical (same node colors, same edge styles) to the pre-resize
visuals.  On the code, `drawGraph` rebuilds the scene with only the initial
colors and nothing re-applies the playback visuals: at stepIndex 1 of the
`cfgABC` run, node B (index 1) is red before the resize and white after,
while stepIndex itself is preserved. -/
theorem C9_counterexample :
    (run cfgABC [Ev.start, Ev.tick]).currentIndex = 1 ∧
    (resizeRedraw cfgABC (run cfgABC [Ev.start, Ev.tick])).currentIndex
      = 1 ∧
    circleFill (run cfgABC [Ev.start, Ev.tick]).scene 1 = some Color.red ∧
    circleFill
      (resizeRedraw cfgABC (run cfgABC [Ev.start, Ev.tick])).scene 1
      = some Color.white := by decide

/-- C9, amended: a viewport resize during a run (static rebuild plus the
re-run of the animation effect) preserves the PlaybackState — stepIndex,
phase, pause flag and callback count are unchanged — but the rebuilt scene
shows the initial coloring (start red, goal green with start precedence,
all other nodes white, every edge neutral black of width 1) rather than the
playback visuals of the current stepIndex; traversal-derived coloring
reappears only through subsequent ticks. -/
theorem C9_amended (cfg : Config) (s : PlayState)
    (h : s.currentIndex ≠ 0) :
    (resizeRedraw cfg s).currentIndex = s.currentIndex ∧
    (resizeRedraw cfg s).isComplete = s.isComplete ∧
    (resizeRedraw cfg s).isPaused = s.isPaused ∧
    (resizeRedraw cfg s).completedCount = s.completedCount ∧
    (resizeRedraw cfg s).scene = drawGraph cfg ∧
    (∀ c ∈ (drawGraph cfg).circles,
      (cfg.startNode = some c.dataLabel → c.fill = Color.red) ∧
      (cfg.startNode ≠ some c.dataLabel → cfg.goalNode = some c.dataLabel →
        c.fill = Color.green) ∧
      (cfg.startNode ≠ some c.dataLabel → cfg.goalNode ≠ some c.dataLabel →
        c.fill = Color.white)) ∧
    (∀ l ∈ (drawGraph cfg).lines,
      l.stroke = Color.black ∧ l.strokeWidth = 1) := by
  have hscene : (resizeRedraw cfg s).scene = drawGraph cfg := by
    unfold resizeRedraw startAnimation
    by_cases h1 : cfg.paths.length = 0
    · simp [h1, h]
    · simp [h1, h]
      split <;> rfl
  refine ⟨?_, ?_, ?_, ?_, hscene, ?_, ?_⟩
  · exact (startAnimation_ctrl cfg _).1
  · exact (startAnimation_ctrl cfg _).2.2.1
  · exact (startAnimation_ctrl cfg _).2.1
  · exact (startAnimation_ctrl cfg _).2.2.2.1
  · intro c hc
    unfold drawGraph at hc
    simp only [List.mem_map] at hc
    obtain ⟨n, _, rfl⟩ := hc
    refine ⟨fun hstart => ?_, fun hns hgoal => ?_, fun hns hng => ?_⟩
    · have h1 : cfg.startNode = some n.label := hstart
      simp [initFill, h1]
    · have h1 : cfg.startNode ≠ some n.label := hns
      have h2 : cfg.goalNode = some n.label := hgoal
      simp [initFill, h1, h2]
    · have h1 : cfg.startNode ≠ some n.label := hns
      have h2 : cfg.goalNode ≠ some n.label := hng
      simp [initFill, h1, h2]
  · intro l hl
    unfold drawGraph at hl
    simp only [List.mem_map] at hl
    obtain ⟨lk, _, rfl⟩ := hl
    exact ⟨rfl, rfl⟩

/-- C9, witness for the amended theorem at the mid-run `cfgABC` state. -/
theorem C9_amended_witness :
    (resizeRedraw cfgABC (run cfgABC [Ev.start, Ev.tick])).currentIndex
        = (run cfgABC [Ev.start, Ev.tick]).currentIndex ∧
      (resizeRedraw cfgABC (run cfgABC [Ev.start, Ev.tick])).scene
        = drawGraph cfgABC :=
  ⟨(C9_amended cfgABC (run cfgABC [Ev.start, Ev.tick]) (by decide)).1,
   (C9_amended cfgABC (run cfgABC [Ev.start, Ev.tick])
      (by decide)).2.2.2.2.1⟩

/-! ## Claim C7 — edge de-highlighting rule -/

/-- C7, counterexample.  The claim says that for dfs a previously
highlighted edge is reverted to neutral exactly when a later step shares
its source label.  On the code, the de-highlight uses `findIndex` over the
earlier steps: only the FIRST earlier same-source step's edge is ever
reverted.  In `cfgQuad` (dfs, steps `(A,B), (A,C), (A,D)`), after the full
run the edge of step `(A,C)` (line `(0,2)`) is still active red although
the later step `(A,D)` shares its source label `A` — only `(A,B)`'s edge
`(0,1)` was reverted to neutral. -/
theorem C7_counterexample :
    cfgQuad.algorithm = "dfs" ∧
    cfgQuad.paths.get? 1 = some ("A", "C") ∧
    cfgQuad.paths.get? 2 = some ("A", "D") ∧
    lineStyle (run cfgQuad [Ev.start, Ev.tick, Ev.tick, Ev.tick]).scene 0 2
      = some (Color.red, 10) ∧
    lineStyle (run cfgQuad [Ev.start, Ev.tick, Ev.tick, Ev.tick]).scene 0 1
      = some (Color.black, 1) := by decide

/-- C7, amended: for `algorithm == "bfs"`, an edge whose stroke is the
active red stays red across every tick, pause toggle and start during the
run (only reset or a scene rebuild make it neutral again).  For non-bfs
algorithms, a tick whose (resolving) step shares its source label with some
earlier step reverts exactly the FIRST such earlier step's edge (in its
resolved orientation, when present and distinct from the tick's own edge)
to the neutral black width-1 style; edges of other same-source steps are
not reverted by that tick. -/
theorem C7_amended :
    (∀ (cfg : Config) (s : PlayState) (e : Ev) (a b : Nat),
      cfg.algorithm = "bfs" →
      (e = Ev.tick ∨ e = Ev.toggle ∨ e = Ev.start) →
      lineStroke s.scene a b = some Color.red →
      lineStroke (step cfg s e).scene a b = some Color.red) ∧
    (∀ (cfg : Config) (s : PlayState) (sl tl ps pt : String)
        (sn tn psn ptn : GNode),
      cfg.algorithm ≠ "bfs" → s.isPaused = false →
      cfg.paths.get? s.currentIndex = some (sl, tl) →
      findNode cfg.data sl = some sn → findNode cfg.data tl = some tn →
      (cfg.paths.take s.currentIndex).find? (fun p => p.1 == sl)
        = some (ps, pt) →
      findNode cfg.data ps = some psn → findNode cfg.data pt = some ptn →
      ¬(psn.index = sn.index ∧ ptn.index = tn.index) →
      (∃ l ∈ s.scene.lines, l.src = psn.index ∧ l.tgt = ptn.index) →
      lineStyle (animate cfg s).scene psn.index ptn.index
        = some (Color.black, 1)) := by
  constructor
  · intro cfg s e a b halg he hred
    unfold lineStroke at hred ⊢
    rcases he with rfl | rfl | rfl
    · simp only [step]
      split
      · by_cases hp : s.isPaused = true
        · rw [animate_of_paused cfg s hp]; exact hred
        · have hp' : s.isPaused = false := by
            cases hpp : s.isPaused
            · rfl
            · exact absurd hpp hp
          rw [animate_lines cfg s hp']
          cases hget : cfg.paths.get? s.currentIndex with
          | none => exact hred
          | some p =>
            obtain ⟨sl, tl⟩ := p
            cases hfs : findNode cfg.data sl with
            | none =>
              cases hft : findNode cfg.data tl <;>
                simp only [hget, hfs, hft] <;> exact hred
            | some sn =>
              cases hft : findNode cfg.data tl with
              | none => simp only [hget, hfs, hft]; exact hred
              | some tn =>
                simp only [hget, hfs, hft]
                rw [revertLines_bfs cfg halg]
                exact lineStroke_red_selectLine s.scene.lines sn.index
                  tn.index (if cfg.smallView then 5 else 10) a b hred
      · exact hred
    · simp only [step]
      rw [(togglePause_ctrl cfg s).2.2.2]
      exact hred
    · simp only [step]
      rw [(startAnimation_ctrl cfg s).2.2.2.2]
      exact hred
  · intro cfg s sl tl ps pt sn tn psn ptn halg hp hget hfs hft hprev
      hpsn hptn hne hex
    unfold lineStyle
    rw [animate_lines cfg s hp]
    simp only [hget, hfs, hft]
    have hrev : revertLines cfg s.currentIndex sl s.scene.lines
        = selectLine s.scene.lines psn.index ptn.index
          (fun l => { l with stroke := Color.black, strokeWidth := 1 }) := by
      unfold revertLines
      rw [if_pos halg]
      simp only [hprev, hpsn, hptn]
    rw [hrev]
    rw [find?_selectLine_ne _ sn.index tn.index psn.index ptn.index
      (fun l => { l with stroke := Color.red,
                         strokeWidth := if cfg.smallView then 5 else 10 })
      (fun l => ⟨rfl, rfl⟩) (fun hc => hne ⟨hc.1.symm, hc.2.symm⟩)]
    rw [find?_selectLine_self s.scene.lines psn.index ptn.index
      (fun l => { l with stroke := Color.black, strokeWidth := 1 })
      (fun l => ⟨rfl, rfl⟩)]
    obtain ⟨l0, hl0⟩ := find?_some_of_exists
      (fun l => l.src == psn.index && l.tgt == ptn.index) s.scene.lines
      (by
        obtain ⟨l, hm, h1, h2⟩ := hex
        refine ⟨l, hm, ?_⟩
        show (l.src == psn.index && l.tgt == ptn.index) = true
        rw [linePredicate_eq]
        exact decide_eq_true ⟨h1, h2⟩)
    rw [hl0]
    rfl

/-- C7, witness for the amended theorem: in the bfs replay of `cfgQuad` the
edge highlighted by the first tick stays red across the next tick, and in
the dfs replay the second tick reverts the first step's edge to neutral. -/
theorem C7_amended_witness :
    lineStroke (step cfgQuadBfs (run cfgQuadBfs [Ev.start, Ev.tick])
        Ev.tick).scene 0 1 = some Color.red ∧
      lineStyle (animate cfgQuad
        (run cfgQuad [Ev.start, Ev.tick])).scene 0 1
        = some (Color.black, 1) :=
  ⟨C7_amended.1 cfgQuadBfs (run cfgQuadBfs [Ev.start, Ev.tick]) Ev.tick 0 1
      rfl (Or.inl rfl) (by decide),
   C7_amended.2 cfgQuad (run cfgQuad [Ev.start, Ev.tick]) "A" "C" "A" "B"
      nodeA nodeC nodeA nodeB (by decide) (by decide) (by decide)
      (by decide) (by decide) (by decide) (by decide) (by decide)
      (by decide) (by decide)⟩

/-! ## Claim C10 — orientation-sensitive edge lookup -/

/-- C10, counterexample.  The claim says that on a tick whose step
traverses a stored edge in the reverse orientation, the edge highlight AND
de-highlight selections match no element and silently change nothing.  In
`cfgRev` the step `("A","B")` resolves to `(0,1)` while the link is stored
as `(1,0)` — its highlight indeed matches nothing — but that same tick's
de-highlight targets the first earlier same-source step `("A","C")`, whose
edge `(0,2)` is stored forward: the tick reverts it from red to black, so
the tick's selections did change an edge style. -/
theorem C10_counterexample :
    (cfgRev.data.links.map (fun l => (l.source, l.target))
      = [(0, 2), (1, 0)]) ∧
    findNode cfgRev.data "A" = some nodeA ∧
    findNode cfgRev.data "B" = some nodeB ∧
    lineStroke (run cfgRev [Ev.start, Ev.tick]).scene 0 2
      = some Color.red ∧
    lineStroke (run cfgRev [Ev.start, Ev.tick, Ev.tick]).scene 0 2
      = some Color.black := by decide

/-- C10, amended: when the tick's step resolves to an index pair that keys
no line element (e.g. the edge is stored only in the opposite orientation),
the highlight selection changes nothing: the resulting line list is exactly
the result of the tick's de-highlight pass alone (which may still revert
the first earlier same-source step's stored edge).  The stepIndex
bookkeeping is unaffected: the tick advances by 1 when at least two steps
remain and completes without advancing on the final step. -/
theorem C10_amended (cfg : Config) (s : PlayState) (sl tl : String)
    (sn tn : GNode)
    (hp : s.isPaused = false)
    (hget : cfg.paths.get? s.currentIndex = some (sl, tl))
    (hfs : findNode cfg.data sl = some sn)
    (hft : findNode cfg.data tl = some tn)
    (habsent : ∀ l ∈ s.scene.lines,
      ¬(l.src = sn.index ∧ l.tgt = tn.index)) :
    (animate cfg s).scene.lines
        = revertLines cfg s.currentIndex sl s.scene.lines ∧
    (s.currentIndex + 1 < cfg.paths.length →
      (animate cfg s).currentIndex = s.currentIndex + 1) ∧
    (s.currentIndex + 1 ≥ cfg.paths.length →
      (animate cfg s).isComplete = true ∧
      (animate cfg s).currentIndex = s.currentIndex) := by
  refine ⟨?_, fun hlt => (animate_nonfinal cfg s hp hlt).1,
    fun hge => ⟨(animate_final cfg s hp hge).2.2.1,
      (animate_final cfg s hp hge).1⟩⟩
  rw [animate_lines cfg s hp]
  simp only [hget, hfs, hft]
  apply selectLine_of_absent
  intro l' hl' hc
  obtain ⟨l, hm, e1, e2⟩ :=
    revertLines_keys cfg s.currentIndex sl s.scene.lines l' hl'
  exact habsent l hm ⟨by rw [← e1]; exact hc.1, by rw [← e2]; exact hc.2⟩

/-- C10, witness for the amended theorem at the `cfgRev` run: the tick
applying the reversed step `("A","B")` leaves the line list exactly as the
de-highlight pass alone produces it, and completes without advancing. -/
theorem C10_amended_witness :
    (animate cfgRev (run cfgRev [Ev.start, Ev.tick])).scene.lines
        = revertLines cfgRev (run cfgRev [Ev.start, Ev.tick]).currentIndex
            "A" (run cfgRev [Ev.start, Ev.tick]).scene.lines ∧
      (animate cfgRev (run cfgRev [Ev.start, Ev.tick])).isComplete
        = true ∧
      (animate cfgRev (run cfgRev [Ev.start, Ev.tick])).currentIndex
        = (run cfgRev [Ev.start, Ev.tick]).currentIndex :=
  ⟨(C10_amended cfgRev (run cfgRev [Ev.start, Ev.tick]) "A" "B" nodeA
      nodeB (by decide) (by decide) (by decide) (by decide)
      (by decide)).1,
   (C10_amended cfgRev (run cfgRev [Ev.start, Ev.tick]) "A" "B" nodeA
      nodeB (by decide) (by decide) (by decide) (by decide)
      (by decide)).2.2 (by decide)⟩

end GraphViz
